import Mathlib

/-!
Verification of the App-Store-Connect CLI core against its specification.

The Go source is embedded shallowly:

* `AscCli.trimSpace` models `strings.TrimSpace` (Go `unicode.IsSpace` over the
  Latin-1 range, which covers every string handled here).
* `AscCli.Paginate` embeds the cursor-pagination loop of
  `runValidateIAP` / `runValidateSubscriptions` (fuel-indexed, with an
  explicit request counter).
* `AscCli.NextURL` models the resume-cursor validator (its implementation is
  exercised only through its tests in the repository snapshot, so it is
  modelled from the specification).
* `AscCli.Status` embeds `collectDashboard` / `runTasks` from the status
  dashboard, with the three section closures abstracted as snapshot
  transformers and the concurrent execution linearised in task order.
* `AscCli.Sched` gives an interleaving small-step semantics for `runTasks`'
  semaphore-bounded goroutine fan-out.
* `AscCli.Submit` embeds the readiness validator `runValidation` and its
  check functions, with the remote client abstracted as a record of fetch
  outcomes.
* `selectLatestAppStoreVersion` embeds the latest-item selector.
-/

namespace AscCli

/-- Go `unicode.IsSpace` restricted to the Latin-1 range, as used by
`strings.TrimSpace`. -/
def goIsSpace (c : Char) : Bool :=
  c == ' ' || c == '\t' || c == '\n' || c == '\x0b' || c == '\x0c' ||
  c == '\r' || c == '\x85' || c == '\xa0'

/-- Drop trailing characters satisfying `goIsSpace`. -/
def trimRightList (l : List Char) : List Char :=
  (l.reverse.dropWhile goIsSpace).reverse

/-- Embedding of Go `strings.TrimSpace`. -/
def trimSpace (s : String) : String :=
  ⟨trimRightList (s.data.dropWhile goIsSpace)⟩

theorem dropWhile_dropWhile_eq (p : Char → Bool) (l : List Char) :
    (l.dropWhile p).dropWhile p = l.dropWhile p := by
  cases h : l.dropWhile p with
  | nil => simp
  | cons c t =>
    have hnot := List.head?_dropWhile_not p l
    rw [h] at hnot
    simp only [List.head?_cons] at hnot
    simp [List.dropWhile_cons, hnot]

theorem trimSpace_idem (s : String) : trimSpace (trimSpace s) = trimSpace s := by
  unfold trimSpace trimRightList
  simp only [String.data]
  set m := s.data.dropWhile goIsSpace with hm
  set l1 := (m.reverse.dropWhile goIsSpace).reverse with hl1
  have hsuffix := List.dropWhile_suffix (l := m.reverse) goIsSpace
  obtain ⟨t, ht⟩ := hsuffix
  have hml : l1 ++ t.reverse = m := by
    have := congrArg List.reverse ht
    simpa [List.reverse_append] using this
  have hstepA : l1.dropWhile goIsSpace = l1 := by
    cases hc : l1 with
    | nil => simp
    | cons c l1' =>
      have hmc : m = c :: (l1' ++ t.reverse) := by
        rw [← hml, hc]; simp
      have hnot := List.head?_dropWhile_not goIsSpace s.data
      rw [← hm, hmc] at hnot
      simp only [List.head?_cons] at hnot
      simp [List.dropWhile_cons, hnot]
  rw [hstepA]
  have hrev : l1.reverse = m.reverse.dropWhile goIsSpace := by
    rw [hl1, List.reverse_reverse]
  rw [hrev, dropWhile_dropWhile_eq, ← hrev, List.reverse_reverse]

theorem dropWhile_eq_nil_of_all (p : Char → Bool) :
    ∀ l : List Char, l.all p = true → l.dropWhile p = []
  | [], _ => rfl
  | c :: t, h => by
    simp only [List.all_cons, Bool.and_eq_true] at h
    simp [List.dropWhile_cons, h.1, dropWhile_eq_nil_of_all p t h.2]

theorem trimSpace_eq_empty_of_all_space (s : String)
    (h : s.data.all goIsSpace = true) : trimSpace s = "" := by
  unfold trimSpace trimRightList
  rw [dropWhile_eq_nil_of_all goIsSpace s.data h]
  rfl

namespace Paginate

/-- One page of a paginated collection response: the typed items plus the
`links.next` field (empty meaning terminal). -/
structure Page (α : Type) where
  data : List α
  next : String
deriving DecidableEq

/-- Request selection of the pagination loop: when the stored next-URL trims
to a non-empty string the request targets that URL, otherwise the first page
(with the fixed page-size limit) is requested. -/
def fetchArg (nextURL : String) : Option String :=
  if trimSpace nextURL = "" then none else some nextURL

/-- Embedding of the pagination loop shared by `runValidateIAP` and
`runValidateSubscriptions`: fetch a page, append its items, trim the returned
next link, stop when it is empty, otherwise continue from the link.  The
`Nat` fuel bounds the number of iterations (the Go loop is unbounded); the
second component counts requests issued. -/
def paginateFrom (fetch : Option String → Except String (Page α)) :
    Nat → String → List α → Nat → Except String (List α) × Nat
  | 0, _, _, reqs => (.error "pagination fuel exhausted", reqs)
  | fuel + 1, nextURL, acc, reqs =>
    match fetch (fetchArg nextURL) with
    | .error e =>
      (.error ("validate iap: failed to fetch in-app purchases: " ++ e), reqs + 1)
    | .ok page =>
      let acc2 := acc ++ page.data
      let nxt := trimSpace page.next
      if nxt = "" then (.ok acc2, reqs + 1)
      else paginateFrom fetch fuel nxt acc2 (reqs + 1)

/-- A full traversal starting from the first page with no items accumulated. -/
def runPaginate (fetch : Option String → Except String (Page α)) (fuel : Nat) :
    Except String (List α) × Nat :=
  paginateFrom fetch fuel "" [] 0

end Paginate

end AscCli

/-- C5: a two-page traversal where page 1 returns item `A` plus a non-empty
next link and page 2 returns item `B` plus an empty link accumulates exactly
`[A, B]` in fetch order and issues exactly two requests. -/
theorem paginate_two_pages {α : Type}
    (fetch : Option String → Except String (AscCli.Paginate.Page α))
    (A B : α) (url2 term : String) (fuel : Nat)
    (h1 : fetch none = .ok ⟨[A], url2⟩)
    (h2 : AscCli.trimSpace url2 ≠ "")
    (h3 : fetch (some (AscCli.trimSpace url2)) = .ok ⟨[B], term⟩)
    (h4 : AscCli.trimSpace term = "")
    (h5 : 2 ≤ fuel) :
    AscCli.Paginate.runPaginate fetch fuel = (.ok [A, B], 2) := by
  obtain ⟨f, rfl⟩ : ∃ f, fuel = f + 2 := ⟨fuel - 2, by omega⟩
  unfold AscCli.Paginate.runPaginate
  have hempty : AscCli.trimSpace "" = "" := rfl
  show AscCli.Paginate.paginateFrom fetch (f + 1 + 1) "" [] 0 = (.ok [A, B], 2)
  rw [AscCli.Paginate.paginateFrom]
  have harg0 : AscCli.Paginate.fetchArg "" = none := by
    simp [AscCli.Paginate.fetchArg, hempty]
  rw [harg0, h1]
  simp only [h2, if_neg h2, List.nil_append]
  rw [AscCli.Paginate.paginateFrom]
  have harg1 : AscCli.Paginate.fetchArg (AscCli.trimSpace url2) =
      some (AscCli.trimSpace url2) := by
    simp [AscCli.Paginate.fetchArg, AscCli.trimSpace_idem, h2]
  rw [harg1, h3]
  simp [h4]

/-- C5 witness: a concrete two-page server. -/
def twoPageFetch : Option String → Except String (AscCli.Paginate.Page String) :=
  fun req =>
    match req with
    | none => .ok ⟨["A"], "https://x?cursor=BQ"⟩
    | some u =>
      if u = "https://x?cursor=BQ" then .ok ⟨["B"], ""⟩
      else .error "unexpected request"

theorem paginate_two_pages_witness :
    AscCli.Paginate.runPaginate twoPageFetch 2 = (.ok ["A", "B"], 2) :=
  paginate_two_pages twoPageFetch "A" "B" "https://x?cursor=BQ" "" 2
    rfl (by decide) rfl rfl (by decide)

/-- C6: if the fetch at any step of the traversal fails, the whole traversal
aborts immediately with the wrapped error — exactly one more request is
issued, and the items accumulated so far (`acc`, arbitrary here) do not
appear in the returned value. -/
theorem paginate_abort_on_failure {α : Type}
    (fetch : Option String → Except String (AscCli.Paginate.Page α))
    (fuel reqs : Nat) (nextURL e : String) (acc : List α)
    (h : fetch (AscCli.Paginate.fetchArg nextURL) = .error e) :
    AscCli.Paginate.paginateFrom fetch (fuel + 1) nextURL acc reqs =
      (.error ("validate iap: failed to fetch in-app purchases: " ++ e), reqs + 1) := by
  rw [AscCli.Paginate.paginateFrom, h]

/-- C6 witness: a server that always fails. -/
def failingFetch : Option String → Except String (AscCli.Paginate.Page String) :=
  fun _ => .error "boom"

theorem paginate_abort_on_failure_witness :
    AscCli.Paginate.paginateFrom failingFetch 1 "" ["partial"] 0 =
      (.error "validate iap: failed to fetch in-app purchases: boom", 1) :=
  paginate_abort_on_failure failingFetch 0 0 "" "boom" ["partial"] rfl

/-- C10: a next-page link consisting only of whitespace is treated as
terminal — the link is trimmed before the emptiness test, so the traversal
stops after this page without issuing a further request. -/
theorem paginate_whitespace_next_terminal {α : Type}
    (fetch : Option String → Except String (AscCli.Paginate.Page α))
    (fuel reqs : Nat) (nextURL : String) (acc : List α)
    (page : AscCli.Paginate.Page α)
    (h1 : fetch (AscCli.Paginate.fetchArg nextURL) = .ok page)
    (h2 : page.next.data.all AscCli.goIsSpace = true) :
    AscCli.Paginate.paginateFrom fetch (fuel + 1) nextURL acc reqs =
      (.ok (acc ++ page.data), reqs + 1) := by
  rw [AscCli.Paginate.paginateFrom, h1]
  simp [AscCli.trimSpace_eq_empty_of_all_space page.next h2]

/-- C10 witness: a page whose next link is whitespace only. -/
def whitespaceNextFetch : Option String → Except String (AscCli.Paginate.Page String) :=
  fun _ => .ok ⟨["A"], " \t "⟩

theorem paginate_whitespace_next_terminal_witness :
    AscCli.Paginate.paginateFrom whitespaceNextFetch 5 "" [] 0 = (.ok ["A"], 1) :=
  paginate_whitespace_next_terminal whitespaceNextFetch 4 0 "" []
    ⟨["A"], " \t "⟩ rfl (by decide)

namespace AscCli

/-- Lexicographic comparison of character lists: the order Go uses to compare
strings (byte-wise lexicographic, which on these character lists coincides
with character-wise lexicographic). -/
def charListLt : List Char → List Char → Bool
  | [], [] => false
  | [], _ :: _ => true
  | _ :: _, [] => false
  | a :: as, b :: bs =>
    if a < b then true
    else if b < a then false
    else charListLt as bs

/-- Embedding of Go string `<`. -/
def goStringLess (a b : String) : Bool := charListLt a.data b.data

theorem charListLt_trans : ∀ as bs cs : List Char,
    charListLt as bs = true → charListLt bs cs = true → charListLt as cs = true := by
  intro as
  induction as with
  | nil =>
    intro bs cs h1 h2
    cases bs with
    | nil => simp [charListLt] at h1
    | cons b bs' =>
      cases cs with
      | nil => simp [charListLt] at h2
      | cons c cs' => simp [charListLt]
  | cons a as ih =>
    intro bs cs h1 h2
    cases bs with
    | nil => simp [charListLt] at h1
    | cons b bs' =>
      cases cs with
      | nil => simp [charListLt] at h2
      | cons c cs' =>
        simp only [charListLt] at h1 h2 ⊢
        by_cases hab : a < b
        · by_cases hbc : b < c
          · simp [lt_trans hab hbc]
          · rw [if_neg hbc] at h2
            by_cases hcb : c < b
            · rw [if_pos hcb] at h2; cases h2
            · have hbce : b = c := le_antisymm (le_of_not_lt hcb) (le_of_not_lt hbc)
              subst hbce
              simp [hab]
        · rw [if_neg hab] at h1
          by_cases hba : b < a
          · rw [if_pos hba] at h1; cases h1
          · rw [if_neg hba] at h1
            have habe : a = b := le_antisymm (le_of_not_lt hba) (le_of_not_lt hab)
            subst habe
            by_cases hac : a < c
            · simp [hac]
            · rw [if_neg hac] at h2 ⊢
              by_cases hca : c < a
              · rw [if_pos hca] at h2; cases h2
              · rw [if_neg hca] at h2 ⊢
                exact ih bs' cs' h1 h2

theorem charListLt_connex : ∀ as bs : List Char,
    charListLt as bs = false → charListLt bs as = false → as = bs := by
  intro as
  induction as with
  | nil =>
    intro bs h1 _
    cases bs with
    | nil => rfl
    | cons b bs' => simp [charListLt] at h1
  | cons a as ih =>
    intro bs h1 h2
    cases bs with
    | nil => simp [charListLt] at h2
    | cons b bs' =>
      simp only [charListLt] at h1 h2
      by_cases hab : a < b
      · rw [if_pos hab] at h1; cases h1
      · rw [if_neg hab] at h1
        by_cases hba : b < a
        · rw [if_pos hba] at h2; cases h2
        · rw [if_neg hba] at h1
          rw [if_neg hba, if_neg hab] at h2
          have habe : a = b := le_antisymm (le_of_not_lt hba) (le_of_not_lt hab)
          subst habe
          rw [ih bs' h1 h2]

theorem stringDataEq : ∀ {a b : String}, a.data = b.data → a = b := by
  intro a b h
  cases a
  cases b
  simp only at h
  rw [h]

namespace Status

/-- The fields of `asc.Resource[asc.AppStoreVersionAttributes]` consumed by
`selectLatestAppStoreVersion`. -/
structure AppStoreVersionResource where
  id : String
  createdDate : String
deriving DecidableEq

/-- One comparison step of the `selectLatestAppStoreVersion` loop: replace
`best` by `current` when `current` has a strictly greater date (Go
`current.CreatedDate > best.CreatedDate`), or the same date and a
lexicographically greater identifier. -/
def selectStep (best current : AppStoreVersionResource) : AppStoreVersionResource :=
  if goStringLess best.createdDate current.createdDate then current
  else if current.createdDate = best.createdDate ∧
      goStringLess best.id current.id then current
  else best

/-- Embedding of `selectLatestAppStoreVersion`: `none` for the empty list,
otherwise the fold of `selectStep` started at the first element. -/
def selectLatestAppStoreVersion :
    List AppStoreVersionResource → Option AppStoreVersionResource
  | [] => none
  | v :: vs => some (vs.foldl selectStep v)

/-- `x` loses to (or ties with) `r` under (date, then identifier). -/
def domBy (x r : AppStoreVersionResource) : Prop :=
  goStringLess x.createdDate r.createdDate = true ∨
    (x.createdDate = r.createdDate ∧
      (goStringLess x.id r.id = true ∨ x.id = r.id))

theorem domBy_refl (a : AppStoreVersionResource) : domBy a a :=
  Or.inr ⟨rfl, Or.inr rfl⟩

theorem goStringLess_trans {a b c : String}
    (h1 : goStringLess a b = true) (h2 : goStringLess b c = true) :
    goStringLess a c = true :=
  charListLt_trans a.data b.data c.data h1 h2

theorem domBy_trans {a b c : AppStoreVersionResource}
    (h1 : domBy a b) (h2 : domBy b c) : domBy a c := by
  rcases h1 with h1 | ⟨he1, hi1⟩
  · rcases h2 with h2 | ⟨he2, _⟩
    · exact Or.inl (goStringLess_trans h1 h2)
    · exact Or.inl (he2 ▸ h1)
  · rcases h2 with h2 | ⟨he2, hi2⟩
    · exact Or.inl (he1 ▸ h2)
    · refine Or.inr ⟨he1.trans he2, ?_⟩
      rcases hi1 with hi1 | hi1
      · rcases hi2 with hi2 | hi2
        · exact Or.inl (goStringLess_trans hi1 hi2)
        · exact Or.inl (hi2 ▸ hi1)
      · rcases hi2 with hi2 | hi2
        · exact Or.inl (hi1 ▸ hi2)
        · exact Or.inr (hi1.trans hi2)

theorem selectStep_eq_or (b c : AppStoreVersionResource) :
    selectStep b c = b ∨ selectStep b c = c := by
  unfold selectStep
  split
  · exact Or.inr rfl
  · split
    · exact Or.inr rfl
    · exact Or.inl rfl

theorem domBy_selectStep_left (b c : AppStoreVersionResource) :
    domBy b (selectStep b c) := by
  unfold selectStep
  split
  · exact Or.inl (by assumption)
  · split
    · rename_i h2
      exact Or.inr ⟨h2.1.symm, Or.inl h2.2⟩
    · exact domBy_refl b

theorem domBy_selectStep_right (b c : AppStoreVersionResource) :
    domBy c (selectStep b c) := by
  unfold selectStep
  split
  · exact domBy_refl c
  · split
    · exact domBy_refl c
    · rename_i h1 h2
      have h1' : goStringLess b.createdDate c.createdDate = false :=
        Bool.not_eq_true _ ▸ eq_false_of_ne_true h1
      cases hcb : goStringLess c.createdDate b.createdDate with
      | true => exact Or.inl hcb
      | false =>
        have hde : c.createdDate = b.createdDate :=
          stringDataEq (charListLt_connex _ _ hcb h1')
        have hid : goStringLess b.id c.id = false := by
          cases hbid : goStringLess b.id c.id with
          | true => exact absurd ⟨hde, hbid⟩ h2
          | false => rfl
        cases hcid : goStringLess c.id b.id with
        | true => exact Or.inr ⟨hde, Or.inl hcid⟩
        | false =>
          exact Or.inr ⟨hde, Or.inr (stringDataEq (charListLt_connex _ _ hcid hid))⟩

theorem foldl_selectStep_spec (vs : List AppStoreVersionResource)
    (v : AppStoreVersionResource) :
    vs.foldl selectStep v ∈ v :: vs ∧ domBy v (vs.foldl selectStep v) ∧
      ∀ x ∈ vs, domBy x (vs.foldl selectStep v) := by
  induction vs generalizing v with
  | nil =>
    exact ⟨List.mem_singleton.mpr rfl, domBy_refl v, by intro x hx; cases hx⟩
  | cons w ws ih =>
    obtain ⟨hmem, hdom, hall⟩ := ih (selectStep v w)
    simp only [List.foldl_cons]
    refine ⟨?_, ?_, ?_⟩
    · rcases List.mem_cons.mp hmem with h | h
      · rcases selectStep_eq_or v w with hb | hc
        · exact List.mem_cons.mpr (Or.inl (h.trans hb))
        · exact List.mem_cons.mpr (Or.inr (List.mem_cons.mpr (Or.inl (h.trans hc))))
      · exact List.mem_cons.mpr (Or.inr (List.mem_cons.mpr (Or.inr h)))
    · exact domBy_trans (domBy_selectStep_left v w) hdom
    · intro x hx
      rcases List.mem_cons.mp hx with rfl | hx'
      · exact domBy_trans (domBy_selectStep_right v x) hdom
      · exact hall x hx'

end Status

end AscCli

/-- C4: over a non-empty list the latest-item selector returns an element of
the list that every element loses to (or ties with) under the
(max date, then lexicographically greater identifier) ordering — in
particular, on a date tie the greater identifier wins; over the empty list it
returns `none`. -/
theorem selectLatest_spec (l : List AscCli.Status.AppStoreVersionResource) :
    (l = [] → AscCli.Status.selectLatestAppStoreVersion l = none) ∧
    (l ≠ [] → ∃ r, AscCli.Status.selectLatestAppStoreVersion l = some r ∧
      r ∈ l ∧ ∀ x ∈ l,
        AscCli.goStringLess x.createdDate r.createdDate = true ∨
          (x.createdDate = r.createdDate ∧
            (AscCli.goStringLess x.id r.id = true ∨ x.id = r.id))) := by
  constructor
  · rintro rfl; rfl
  · intro hne
    match l with
    | [] => exact absurd rfl hne
    | v :: vs =>
      obtain ⟨hmem, hdom, hall⟩ := AscCli.Status.foldl_selectStep_spec vs v
      refine ⟨vs.foldl AscCli.Status.selectStep v, rfl, hmem, ?_⟩
      intro x hx
      rcases List.mem_cons.mp hx with rfl | hx'
      · exact hdom
      · exact hall x hx'

/-- C4 witness: the deterministic tie-break of the repository's own test —
two versions with equal dates, identifiers `ver-1` and `ver-2`; plus the
empty list. -/
theorem selectLatest_spec_witness :
    AscCli.Status.selectLatestAppStoreVersion [] = none ∧
    (∃ r, AscCli.Status.selectLatestAppStoreVersion
        [⟨"ver-1", "2026-02-20T00:00:00Z"⟩, ⟨"ver-2", "2026-02-20T00:00:00Z"⟩] =
          some r ∧
      r ∈ [(⟨"ver-1", "2026-02-20T00:00:00Z"⟩ : AscCli.Status.AppStoreVersionResource),
           ⟨"ver-2", "2026-02-20T00:00:00Z"⟩] ∧
      ∀ x ∈ [(⟨"ver-1", "2026-02-20T00:00:00Z"⟩ : AscCli.Status.AppStoreVersionResource),
             ⟨"ver-2", "2026-02-20T00:00:00Z"⟩],
        AscCli.goStringLess x.createdDate r.createdDate = true ∨
          (x.createdDate = r.createdDate ∧
            (AscCli.goStringLess x.id r.id = true ∨ x.id = r.id))) :=
  ⟨(selectLatest_spec []).1 rfl,
   (selectLatest_spec _).2 (by simp)⟩

namespace AscCli

namespace NextURL

/-- Hexadecimal digit test used by percent-escape validation. -/
def isHexChar (c : Char) : Bool :=
  c.isDigit || ('a' ≤ c && c ≤ 'f') || ('A' ≤ c && c ≤ 'F')

/-- Modelled from the spec: the repository snapshot only contains the
resume-cursor validator's tests, not its implementation, so URL parsing is
modelled after the parser behaviour those tests exercise — every `%` must be
followed by two hexadecimal digits, otherwise parsing fails (Go's
`url.Parse` rejects `%zz` with an invalid-escape error). -/
def validEscapes : List Char → Bool
  | [] => true
  | c :: rest =>
    if c = '%' then
      match rest with
      | a :: b :: rest2 => isHexChar a && isHexChar b && validEscapes rest2
      | _ => false
    else validEscapes rest

/-- Split a character list at the first `"://"`, returning the scheme part
and the remainder when present. -/
def splitSchemeRest : List Char → Option (List Char × List Char)
  | [] => none
  | ':' :: '/' :: '/' :: rest => some ([], rest)
  | c :: rest => (splitSchemeRest rest).map (fun p => (c :: p.1, p.2))

/-- A parsed URL: scheme, host, and the rest (path, query, fragment). -/
structure ParsedURL where
  scheme : String
  host : String
  rest : String
deriving DecidableEq

/-- Modelled from the spec (§4.1): parse a candidate resume URL into scheme
and host, failing on an invalid percent escape; a string without `"://"`
parses with empty scheme and host (as Go's `url.Parse` accepts it as a
relative reference), which the origin check then rejects. -/
def parseResumeURL (s : String) : Except String ParsedURL :=
  if validEscapes s.data then
    match splitSchemeRest s.data with
    | some (scheme, rest) =>
      let host := rest.takeWhile (fun c => !(c = '/' || c = '?' || c = '#'))
      .ok ⟨⟨scheme⟩, ⟨host⟩, ⟨rest.drop host.length⟩⟩
    | none => .ok ⟨"", "", s⟩
  else .error "invalid URL escape"

/-- The single trusted App Store Connect origin (spec §96 Glossary, tests). -/
def trustedScheme : String := "https"

def trustedHost : String := "api.appstoreconnect.apple.com"

/-- Modelled from the spec (§4.1, §6): validate a `--next` resume cursor.
A string that fails to parse is rejected with the malformed-URL message; a
parsed URL whose scheme/host pair differs from the trusted origin is
rejected with the origin-mismatch message; both messages carry the command
path. -/
def validateNextURL (commandPath next : String) : Except String ParsedURL :=
  match parseResumeURL next with
  | .error e => .error (commandPath ++ ": --next must be a valid URL: " ++ e)
  | .ok u =>
    if u.scheme = trustedScheme ∧ u.host = trustedHost then .ok u
    else .error (commandPath ++ ": --next must be an App Store Connect URL")

/-- Observable behaviour of one paginated `list` command run: how many
requests were issued, what was printed, and the result. -/
structure CommandRun (α : Type) where
  requestCount : Nat
  stdout : String
  result : Except String (List α)

/-- Modelled from the spec (§4.1, §6, §7): a paginated list command given a
`--next` cursor validates it first and only then paginates from it; on a
validation failure it returns the error before issuing any request and
prints nothing. -/
def runListWithNext (commandPath next : String)
    (fetch : Option String → Except String (Paginate.Page α))
    (render : List α → String) (fuel : Nat) : CommandRun α :=
  match validateNextURL commandPath next with
  | .error e => ⟨0, "", .error e⟩
  | .ok _ =>
    let out := Paginate.paginateFrom fetch fuel next [] 0
    match out.1 with
    | .error e => ⟨out.2, "", .error e⟩
    | .ok items => ⟨out.2, render items, .ok items⟩

end NextURL

end AscCli

/-- C1: a resume cursor that fails to parse is rejected with the
malformed-URL message, and one that parses but whose scheme/host pair
differs from the trusted App Store Connect origin is rejected with the
origin-mismatch message (never the malformed one); in both cases the command
fails before issuing any request and produces no output. -/
theorem nextURL_validation_spec {α : Type} (commandPath s : String)
    (fetch : Option String → Except String (AscCli.Paginate.Page α))
    (render : List α → String) (fuel : Nat) :
    (∀ e, AscCli.NextURL.parseResumeURL s = .error e →
      AscCli.NextURL.validateNextURL commandPath s =
        .error (commandPath ++ ": --next must be a valid URL: " ++ e) ∧
      AscCli.NextURL.runListWithNext commandPath s fetch render fuel =
        ⟨0, "", .error (commandPath ++ ": --next must be a valid URL: " ++ e)⟩) ∧
    (∀ u, AscCli.NextURL.parseResumeURL s = .ok u →
      ¬(u.scheme = AscCli.NextURL.trustedScheme ∧
        u.host = AscCli.NextURL.trustedHost) →
      AscCli.NextURL.validateNextURL commandPath s =
        .error (commandPath ++ ": --next must be an App Store Connect URL") ∧
      AscCli.NextURL.runListWithNext commandPath s fetch render fuel =
        ⟨0, "", .error (commandPath ++ ": --next must be an App Store Connect URL")⟩) := by
  constructor
  · intro e he
    have hv : AscCli.NextURL.validateNextURL commandPath s =
        .error (commandPath ++ ": --next must be a valid URL: " ++ e) := by
      unfold AscCli.NextURL.validateNextURL
      rw [he]
    refine ⟨hv, ?_⟩
    unfold AscCli.NextURL.runListWithNext
    rw [hv]
  · intro u hu hmm
    have hv : AscCli.NextURL.validateNextURL commandPath s =
        .error (commandPath ++ ": --next must be an App Store Connect URL") := by
      unfold AscCli.NextURL.validateNextURL
      rw [hu]
      simp [hmm]
    refine ⟨hv, ?_⟩
    unfold AscCli.NextURL.runListWithNext
    rw [hv]

/-- C1 witness: the two rejected cursors of the repository's tests — a
well-formed URL on the wrong scheme, and a malformed URL with an invalid
percent escape — at the `bundle-ids list` command path. -/
theorem nextURL_validation_spec_witness :
    AscCli.NextURL.validateNextURL "bundle-ids list"
        "http://api.appstoreconnect.apple.com/v1/bundleIds?cursor=AQ" =
      .error "bundle-ids list: --next must be an App Store Connect URL" ∧
    AscCli.NextURL.runListWithNext (α := Unit) "bundle-ids list"
        "http://api.appstoreconnect.apple.com/v1/bundleIds?cursor=AQ"
        (fun _ => .error "no server") (fun _ => "") 1 =
      ⟨0, "", .error "bundle-ids list: --next must be an App Store Connect URL"⟩ ∧
    AscCli.NextURL.validateNextURL "bundle-ids list"
        "https://api.appstoreconnect.apple.com/%zz" =
      .error "bundle-ids list: --next must be a valid URL: invalid URL escape" ∧
    AscCli.NextURL.runListWithNext (α := Unit) "bundle-ids list"
        "https://api.appstoreconnect.apple.com/%zz"
        (fun _ => .error "no server") (fun _ => "") 1 =
      ⟨0, "", .error "bundle-ids list: --next must be a valid URL: invalid URL escape"⟩ := by
  have hscheme := (nextURL_validation_spec (α := Unit) "bundle-ids list"
    "http://api.appstoreconnect.apple.com/v1/bundleIds?cursor=AQ"
    (fun _ => .error "no server") (fun _ => "") 1).2
    ⟨"http", "api.appstoreconnect.apple.com", "/v1/bundleIds?cursor=AQ"⟩
    rfl (by decide)
  have hmal := (nextURL_validation_spec (α := Unit) "bundle-ids list"
    "https://api.appstoreconnect.apple.com/%zz"
    (fun _ => .error "no server") (fun _ => "") 1).1
    "invalid URL escape" rfl
  exact ⟨hscheme.1, hscheme.2, hmal.1, hmal.2⟩

namespace AscCli

namespace Submit

/-- A failed fetch, distinguished only by the binary `asc.IsNotFound` signal
plus its rendered message. -/
structure FetchErr where
  notFound : Bool
  msg : String
deriving DecidableEq

/-- The fields of an app store version localization consumed by
`checkVersionLocalizations`. -/
structure VersionLoc where
  id : String
  locale : String
  description : String
  keywords : String
deriving DecidableEq

/-- The fields of a screenshot set consumed by `checkScreenshots`. -/
structure ScreenshotSet where
  id : String
  screenshotDisplayType : String
deriving DecidableEq

/-- The fields of an app info localization consumed by
`checkAppInfoLocalizations`. -/
structure AppInfoLoc where
  locale : String
  name : String
  privacyPolicyURL : String
deriving DecidableEq

/-- The remote client abstracted as a record of fetch outcomes, one per
endpoint used by `runValidation`.  `getAppStoreVersion` returns the resolved
version state (`shared.ResolveAppStoreVersionState` applied to the response
attributes). -/
structure Env where
  getAppStoreVersion : Except FetchErr String
  getAppStoreVersionBuild : Except FetchErr Unit
  getAppStoreVersionLocalizations : Except FetchErr (List VersionLoc)
  getAppScreenshotSets : String → Except FetchErr (List ScreenshotSet)
  getAppScreenshots : String → Except FetchErr (List String)
  getAppInfos : Except FetchErr (List String)
  getAppInfoLocalizations : String → Except FetchErr (List AppInfoLoc)
  getAgeRatingDeclaration : Except FetchErr Unit

/-- One pre-submission validation issue (`SubmitValidateIssue`). -/
structure Issue where
  check : String
  severity : String
  message : String
deriving DecidableEq

/-- The structured result for `submit validate` (`SubmitValidateResult`). -/
structure SubmitValidateResult where
  appId : String
  versionId : String
  platform : String
  issues : List Issue
  errorCount : Nat
  warnCount : Nat
  ready : Bool
deriving DecidableEq

/-- `(*SubmitValidateResult).addError`. -/
def addError (r : SubmitValidateResult) (check message : String) :
    SubmitValidateResult :=
  { r with issues := r.issues ++ [⟨check, "error", message⟩],
           errorCount := r.errorCount + 1 }

/-- `(*SubmitValidateResult).addWarning`. -/
def addWarning (r : SubmitValidateResult) (check message : String) :
    SubmitValidateResult :=
  { r with issues := r.issues ++ [⟨check, "warning", message⟩],
           warnCount := r.warnCount + 1 }

/-- Embedding of Go `strings.ToUpper` (character-wise upper-casing). -/
def goToUpper (s : String) : String :=
  ⟨s.data.map Char.toUpper⟩

/-- `isEditableState`. -/
def isEditableState (state : String) : Bool :=
  let s := goToUpper state
  s == "PREPARE_FOR_SUBMISSION" || s == "DEVELOPER_REJECTED" || s == "REJECTED" ||
  s == "METADATA_REJECTED" || s == "INVALID_BINARY" ||
  s == "DEVELOPER_REMOVED_FROM_SALE"

/-- `checkBuildAttached`, with the fetch outcome passed explicitly. -/
def checkBuildAttached (fetchBuild : Except FetchErr Unit)
    (result : SubmitValidateResult) : SubmitValidateResult :=
  match fetchBuild with
  | .ok _ => result
  | .error e =>
    if e.notFound then addError result "build" "no build attached to this version"
    else addWarning result "build" ("unable to check build: " ++ e.msg)

/-- `checkScreenshots` for one localization. -/
def checkScreenshots (env : Env) (localizationID locale : String)
    (result : SubmitValidateResult) : SubmitValidateResult :=
  match env.getAppScreenshotSets localizationID with
  | .error e =>
    addWarning result "screenshots"
      ("locale " ++ locale ++ ": unable to check screenshots: " ++ e.msg)
  | .ok sets =>
    if sets = [] then
      addError result "screenshots" ("locale " ++ locale ++ ": no screenshot sets found")
    else
      sets.foldl
        (fun r set =>
          match env.getAppScreenshots set.id with
          | .error e =>
            addWarning r "screenshots"
              ("locale " ++ locale ++ " (" ++ set.screenshotDisplayType ++
                "): unable to check: " ++ e.msg)
          | .ok screenshots =>
            if screenshots = [] then
              addWarning r "screenshots"
                ("locale " ++ locale ++ " (" ++ set.screenshotDisplayType ++
                  "): empty screenshot set")
            else r)
        result

/-- The per-localization body of the `checkVersionLocalizations` loop. -/
def versionLocStep (env : Env) (r : SubmitValidateResult) (loc : VersionLoc) :
    SubmitValidateResult :=
  let r1 :=
    if trimSpace loc.description = "" then
      addError r "description" ("locale " ++ loc.locale ++ ": description is empty")
    else r
  let r2 :=
    if trimSpace loc.keywords = "" then
      addWarning r1 "keywords" ("locale " ++ loc.locale ++ ": keywords are empty")
    else r1
  checkScreenshots env loc.id loc.locale r2

/-- `checkVersionLocalizations`. -/
def checkVersionLocalizations (env : Env) (result : SubmitValidateResult) :
    SubmitValidateResult :=
  match env.getAppStoreVersionLocalizations with
  | .error e => addWarning result "version_localizations" ("unable to fetch: " ++ e.msg)
  | .ok locs =>
    if locs = [] then
      addError result "version_localizations" "no version localizations found"
    else locs.foldl (versionLocStep env) result

/-- The per-localization body of the `checkAppInfoLocalizations` loop. -/
def appInfoLocStep (r : SubmitValidateResult) (loc : AppInfoLoc) :
    SubmitValidateResult :=
  let r1 :=
    if trimSpace loc.name = "" then
      addError r "name" ("locale " ++ loc.locale ++ ": app name is empty")
    else r
  if trimSpace loc.privacyPolicyURL = "" then
    addWarning r1 "privacy_policy_url"
      ("locale " ++ loc.locale ++ ": privacy policy URL is empty")
  else r1

/-- `checkAppInfoLocalizations`. -/
def checkAppInfoLocalizations (env : Env) (result : SubmitValidateResult) :
    SubmitValidateResult :=
  match env.getAppInfos with
  | .error e => addWarning result "app_info" ("unable to fetch app info: " ++ e.msg)
  | .ok infos =>
    match infos with
    | [] => addError result "app_info" "no app info records found"
    | appInfoID :: _ =>
      match env.getAppInfoLocalizations appInfoID with
      | .error e =>
        addWarning result "app_info_localizations" ("unable to fetch: " ++ e.msg)
      | .ok locs =>
        if locs = [] then
          addError result "app_info_localizations" "no app info localizations found"
        else locs.foldl appInfoLocStep result

/-- `checkAgeRating`, with the fetch outcome passed explicitly. -/
def checkAgeRating (fetchAgeRating : Except FetchErr Unit)
    (result : SubmitValidateResult) : SubmitValidateResult :=
  match fetchAgeRating with
  | .ok _ => result
  | .error e =>
    if e.notFound then addError result "age_rating" "no age rating declaration found"
    else addWarning result "age_rating" ("unable to check: " ++ e.msg)

/-- The freshly initialised result at the top of `runValidation`. -/
def baseResult (appID versionID platform : String) : SubmitValidateResult :=
  ⟨appID, versionID, platform, [], 0, 0, false⟩

/-- Embedding of `runValidation`: the ordered checklist.  A failure of the
initial version fetch adds one error and returns at once (the Go early
`return result`, which leaves `Ready` at its zero value `false`); otherwise
the five checks run in order and `Ready` is set from the final error count. -/
def runValidation (env : Env) (appID versionID platform : String) :
    SubmitValidateResult :=
  let result := baseResult appID versionID platform
  match env.getAppStoreVersion with
  | .error e => addError result "version" ("failed to fetch version: " ++ e.msg)
  | .ok state =>
    let r1 :=
      if !isEditableState state then
        addError result "version_state" ("version is in non-editable state: " ++ state)
      else result
    let r2 := checkBuildAttached env.getAppStoreVersionBuild r1
    let r3 := checkVersionLocalizations env r2
    let r4 := checkAppInfoLocalizations env r3
    let r5 := checkAgeRating env.getAgeRatingDeclaration r4
    { r5 with ready := r5.errorCount == 0 }

end Submit

end AscCli

namespace AscCli

namespace Submit

/-- Number of issues of a given severity. -/
def countSev (sev : String) (issues : List Issue) : Nat :=
  (issues.filter (fun i => i.severity == sev)).length

theorem countSev_append (sev : String) (l1 l2 : List Issue) :
    countSev sev (l1 ++ l2) = countSev sev l1 + countSev sev l2 := by
  simp [countSev, List.filter_append]

/-- `r'` extends `r` by appending issues and bumping the matching counters,
leaving identity fields and the ready flag unchanged — the shape of every
mutation the readiness checks perform. -/
def resultExtends (r r' : SubmitValidateResult) : Prop :=
  ∃ added,
    r'.issues = r.issues ++ added ∧
    r'.errorCount = r.errorCount + countSev "error" added ∧
    r'.warnCount = r.warnCount + countSev "warning" added ∧
    r'.appId = r.appId ∧ r'.versionId = r.versionId ∧
    r'.platform = r.platform ∧ r'.ready = r.ready

theorem resultExtends_refl (r : SubmitValidateResult) : resultExtends r r :=
  ⟨[], by simp [countSev]⟩

theorem resultExtends_trans {r r' r'' : SubmitValidateResult}
    (h1 : resultExtends r r') (h2 : resultExtends r' r'') :
    resultExtends r r'' := by
  obtain ⟨a1, hi1, he1, hw1, f1, f2, f3, f4⟩ := h1
  obtain ⟨a2, hi2, he2, hw2, g1, g2, g3, g4⟩ := h2
  refine ⟨a1 ++ a2, ?_, ?_, ?_, g1.trans f1, g2.trans f2, g3.trans f3, g4.trans f4⟩
  · rw [hi2, hi1, List.append_assoc]
  · rw [he2, he1, countSev_append, Nat.add_assoc]
  · rw [hw2, hw1, countSev_append, Nat.add_assoc]

theorem resultExtends_addError (r : SubmitValidateResult) (c m : String) :
    resultExtends r (addError r c m) := by
  refine ⟨[⟨c, "error", m⟩], rfl, ?_, ?_, rfl, rfl, rfl, rfl⟩
  · simp [addError, countSev]
  · simp [addError, countSev]

theorem resultExtends_addWarning (r : SubmitValidateResult) (c m : String) :
    resultExtends r (addWarning r c m) := by
  refine ⟨[⟨c, "warning", m⟩], rfl, ?_, ?_, rfl, rfl, rfl, rfl⟩
  · simp [addWarning, countSev]
  · simp [addWarning, countSev]

theorem foldl_resultExtends {β : Type} (f : SubmitValidateResult → β → SubmitValidateResult)
    (hf : ∀ r b, resultExtends r (f r b)) :
    ∀ (l : List β) (r : SubmitValidateResult), resultExtends r (l.foldl f r)
  | [], r => resultExtends_refl r
  | b :: t, r =>
    resultExtends_trans (hf r b) (foldl_resultExtends f hf t (f r b))

theorem resultExtends_ite (r : SubmitValidateResult) (c : Prop) [Decidable c]
    (f g : SubmitValidateResult) (hf : resultExtends r f)
    (hg : resultExtends r g) : resultExtends r (if c then f else g) := by
  split
  · exact hf
  · exact hg

theorem checkBuildAttached_extends (fb : Except FetchErr Unit)
    (r : SubmitValidateResult) : resultExtends r (checkBuildAttached fb r) := by
  cases fb with
  | ok u => exact resultExtends_refl r
  | error e =>
    show resultExtends r (if e.notFound then _ else _)
    exact resultExtends_ite r _ _ _ (resultExtends_addError r _ _)
      (resultExtends_addWarning r _ _)

theorem checkScreenshots_extends (env : Env) (localizationID locale : String)
    (r : SubmitValidateResult) :
    resultExtends r (checkScreenshots env localizationID locale r) := by
  unfold checkScreenshots
  cases env.getAppScreenshotSets localizationID with
  | error e => exact resultExtends_addWarning r _ _
  | ok sets =>
    refine resultExtends_ite r _ _ _ (resultExtends_addError r _ _) ?_
    apply foldl_resultExtends
    intro r' set
    cases env.getAppScreenshots set.id with
    | error e => exact resultExtends_addWarning r' _ _
    | ok screenshots =>
      exact resultExtends_ite r' _ _ _ (resultExtends_addWarning r' _ _)
        (resultExtends_refl r')

theorem versionLocStep_extends (env : Env) (r : SubmitValidateResult)
    (loc : VersionLoc) : resultExtends r (versionLocStep env r loc) := by
  have h1 : resultExtends r
      (if trimSpace loc.description = "" then
        addError r "description" ("locale " ++ loc.locale ++ ": description is empty")
      else r) :=
    resultExtends_ite r _ _ _ (resultExtends_addError r _ _) (resultExtends_refl r)
  have h2 : resultExtends r
      (if trimSpace loc.keywords = "" then
        addWarning
          (if trimSpace loc.description = "" then
            addError r "description" ("locale " ++ loc.locale ++ ": description is empty")
          else r)
          "keywords" ("locale " ++ loc.locale ++ ": keywords are empty")
      else
        (if trimSpace loc.description = "" then
          addError r "description" ("locale " ++ loc.locale ++ ": description is empty")
        else r)) :=
    resultExtends_ite r _ _ _
      (resultExtends_trans h1 (resultExtends_addWarning _ _ _)) h1
  exact resultExtends_trans h2 (checkScreenshots_extends env loc.id loc.locale _)

theorem checkVersionLocalizations_extends (env : Env) (r : SubmitValidateResult) :
    resultExtends r (checkVersionLocalizations env r) := by
  unfold checkVersionLocalizations
  cases env.getAppStoreVersionLocalizations with
  | error e => exact resultExtends_addWarning r _ _
  | ok locs =>
    exact resultExtends_ite r _ _ _ (resultExtends_addError r _ _)
      (foldl_resultExtends (versionLocStep env) (versionLocStep_extends env) locs r)

theorem appInfoLocStep_extends (r : SubmitValidateResult) (loc : AppInfoLoc) :
    resultExtends r (appInfoLocStep r loc) := by
  have h1 : resultExtends r
      (if trimSpace loc.name = "" then
        addError r "name" ("locale " ++ loc.locale ++ ": app name is empty")
      else r) :=
    resultExtends_ite r _ _ _ (resultExtends_addError r _ _) (resultExtends_refl r)
  exact resultExtends_ite r _ _ _
    (resultExtends_trans h1 (resultExtends_addWarning _ _ _)) h1

theorem checkAppInfoLocalizations_extends (env : Env) (r : SubmitValidateResult) :
    resultExtends r (checkAppInfoLocalizations env r) := by
  unfold checkAppInfoLocalizations
  cases env.getAppInfos with
  | error e => exact resultExtends_addWarning r _ _
  | ok infos =>
    cases infos with
    | nil => exact resultExtends_addError r _ _
    | cons appInfoID rest =>
      show resultExtends r
        (match env.getAppInfoLocalizations appInfoID with
        | .error e =>
          addWarning r "app_info_localizations" ("unable to fetch: " ++ e.msg)
        | .ok locs =>
          if locs = [] then
            addError r "app_info_localizations" "no app info localizations found"
          else List.foldl appInfoLocStep r locs)
      cases env.getAppInfoLocalizations appInfoID with
      | error e => exact resultExtends_addWarning r _ _
      | ok locs =>
        exact resultExtends_ite r _ _ _ (resultExtends_addError r _ _)
          (foldl_resultExtends appInfoLocStep appInfoLocStep_extends locs r)

theorem checkAgeRating_extends (fa : Except FetchErr Unit)
    (r : SubmitValidateResult) : resultExtends r (checkAgeRating fa r) := by
  cases fa with
  | ok u => exact resultExtends_refl r
  | error e =>
    show resultExtends r (if e.notFound then _ else _)
    exact resultExtends_ite r _ _ _ (resultExtends_addError r _ _)
      (resultExtends_addWarning r _ _)

end Submit

end AscCli

namespace AscCli

namespace Submit

/-- The value computed by the `.ok` branch of `runValidation` before the
ready flag is set: the five checks of the ordered checklist composed in
source order. -/
def versionOkChain (env : Env) (appID versionID platform state : String) :
    SubmitValidateResult :=
  let result := baseResult appID versionID platform
  let r1 :=
    if !isEditableState state then
      addError result "version_state" ("version is in non-editable state: " ++ state)
    else result
  let r2 := checkBuildAttached env.getAppStoreVersionBuild r1
  let r3 := checkVersionLocalizations env r2
  let r4 := checkAppInfoLocalizations env r3
  checkAgeRating env.getAgeRatingDeclaration r4

theorem runValidation_ok_eq (env : Env) (appID versionID platform state : String)
    (h : env.getAppStoreVersion = .ok state) :
    runValidation env appID versionID platform =
      { versionOkChain env appID versionID platform state with
        ready := (versionOkChain env appID versionID platform state).errorCount == 0 } := by
  unfold runValidation versionOkChain
  rw [h]

theorem runValidation_err_eq (env : Env) (appID versionID platform : String)
    (e : FetchErr) (h : env.getAppStoreVersion = .error e) :
    runValidation env appID versionID platform =
      addError (baseResult appID versionID platform) "version"
        ("failed to fetch version: " ++ e.msg) := by
  unfold runValidation
  rw [h]

theorem versionOkChain_extends (env : Env) (appID versionID platform state : String) :
    resultExtends (baseResult appID versionID platform)
      (versionOkChain env appID versionID platform state) := by
  unfold versionOkChain
  exact resultExtends_trans
    (resultExtends_trans
      (resultExtends_trans
        (resultExtends_trans
          (resultExtends_ite _ _ _ _ (resultExtends_addError _ _ _)
            (resultExtends_refl _))
          (checkBuildAttached_extends _ _))
        (checkVersionLocalizations_extends _ _))
      (checkAppInfoLocalizations_extends _ _))
    (checkAgeRating_extends _ _)

end Submit

end AscCli

/-- C7: the ready flag of a readiness-validation result is true exactly when
its error count is zero, and the error / warning counters equal the number
of error- / warning-severity issues in the list (so warnings never influence
the ready flag). -/
theorem ready_iff_no_errors (env : AscCli.Submit.Env)
    (appID versionID platform : String) :
    ((AscCli.Submit.runValidation env appID versionID platform).ready = true ↔
      (AscCli.Submit.runValidation env appID versionID platform).errorCount = 0) ∧
    (AscCli.Submit.runValidation env appID versionID platform).errorCount =
      AscCli.Submit.countSev "error"
        (AscCli.Submit.runValidation env appID versionID platform).issues ∧
    (AscCli.Submit.runValidation env appID versionID platform).warnCount =
      AscCli.Submit.countSev "warning"
        (AscCli.Submit.runValidation env appID versionID platform).issues := by
  cases h : env.getAppStoreVersion with
  | error e =>
    rw [AscCli.Submit.runValidation_err_eq env appID versionID platform e h]
    refine ⟨?_, ?_, ?_⟩ <;>
      simp [AscCli.Submit.addError, AscCli.Submit.baseResult, AscCli.Submit.countSev]
  | ok state =>
    rw [AscCli.Submit.runValidation_ok_eq env appID versionID platform state h]
    obtain ⟨added, hiss, herr, hwarn, -, -, -, -⟩ :=
      AscCli.Submit.versionOkChain_extends env appID versionID platform state
    refine ⟨by simp, ?_, ?_⟩
    · show (AscCli.Submit.versionOkChain env appID versionID platform state).errorCount =
        AscCli.Submit.countSev "error"
          (AscCli.Submit.versionOkChain env appID versionID platform state).issues
      rw [herr, hiss]
      simp [AscCli.Submit.baseResult]
    · show (AscCli.Submit.versionOkChain env appID versionID platform state).warnCount =
        AscCli.Submit.countSev "warning"
          (AscCli.Submit.versionOkChain env appID versionID platform state).issues
      rw [hwarn, hiss]
      simp [AscCli.Submit.baseResult]

/-- C8: for the build-attachment check and the age-rating check, a fetch
failure flagged not-found appends an error-severity issue, any other fetch
failure appends a warning-severity issue, and a successful fetch appends no
issue. -/
theorem attachment_check_severity (e : AscCli.Submit.FetchErr)
    (r : AscCli.Submit.SubmitValidateResult) (c m : String) :
    AscCli.Submit.checkBuildAttached (.ok ()) r = r ∧
    AscCli.Submit.checkBuildAttached (.error e) r =
      (if e.notFound then
        AscCli.Submit.addError r "build" "no build attached to this version"
      else
        AscCli.Submit.addWarning r "build" ("unable to check build: " ++ e.msg)) ∧
    AscCli.Submit.checkAgeRating (.ok ()) r = r ∧
    AscCli.Submit.checkAgeRating (.error e) r =
      (if e.notFound then
        AscCli.Submit.addError r "age_rating" "no age rating declaration found"
      else
        AscCli.Submit.addWarning r "age_rating" ("unable to check: " ++ e.msg)) ∧
    (AscCli.Submit.addError r c m).issues = r.issues ++ [⟨c, "error", m⟩] ∧
    (AscCli.Submit.addWarning r c m).issues = r.issues ++ [⟨c, "warning", m⟩] :=
  ⟨rfl, rfl, rfl, rfl, rfl, rfl⟩

/-- An environment whose initial version fetch fails while the build and age
rating fetches would fail as not-found (which, were those checks executed,
would append error issues). -/
def envVersionDown : AscCli.Submit.Env :=
  ⟨.error ⟨false, "boom"⟩, .error ⟨true, "not found"⟩, .ok [],
   fun _ => .ok [], fun _ => .ok [], .ok [], fun _ => .ok [],
   .error ⟨true, "not found"⟩⟩

/-- C3 counterexample: when the initial target/version fetch fails, the run
returns immediately with the single `version` error issue — the remaining
checks (build, localizations, app info, age rating) do not execute, even
though the build and age-rating fetches of this environment fail and would
have contributed issues. -/
theorem runValidation_aborts_on_version_fetch_failure :
    (AscCli.Submit.runValidation envVersionDown "app-1" "ver-1" "IOS").issues =
      [⟨"version", "error", "failed to fetch version: boom"⟩] ∧
    (AscCli.Submit.runValidation envVersionDown "app-1" "ver-1" "IOS").issues.all
      (fun i => i.check != "build" && i.check != "age_rating") = true := by
  decide

/-- C3 (amended): when the initial target/version fetch succeeds, the run is
exactly the five checks of the checklist composed in order (with the ready
flag set from the final error count), and every check only ever extends the
running result by appending issues — a sub-resource fetch failure inside a
check degrades to an issue and never prevents the remaining checks from
executing.  (When the initial fetch fails the run instead returns
immediately with a single `version` error issue.) -/
theorem runValidation_degrades (env : AscCli.Submit.Env)
    (appID versionID platform state : String)
    (h : env.getAppStoreVersion = .ok state) :
    AscCli.Submit.runValidation env appID versionID platform =
      { AscCli.Submit.versionOkChain env appID versionID platform state with
        ready :=
          (AscCli.Submit.versionOkChain env appID versionID platform state).errorCount
            == 0 } ∧
    (∀ r, AscCli.Submit.resultExtends r
      (AscCli.Submit.checkBuildAttached env.getAppStoreVersionBuild r)) ∧
    (∀ r, AscCli.Submit.resultExtends r
      (AscCli.Submit.checkVersionLocalizations env r)) ∧
    (∀ r, AscCli.Submit.resultExtends r
      (AscCli.Submit.checkAppInfoLocalizations env r)) ∧
    (∀ r, AscCli.Submit.resultExtends r
      (AscCli.Submit.checkAgeRating env.getAgeRatingDeclaration r)) :=
  ⟨AscCli.Submit.runValidation_ok_eq env appID versionID platform state h,
   fun r => AscCli.Submit.checkBuildAttached_extends _ r,
   fun r => AscCli.Submit.checkVersionLocalizations_extends env r,
   fun r => AscCli.Submit.checkAppInfoLocalizations_extends env r,
   fun r => AscCli.Submit.checkAgeRating_extends _ r⟩

/-- An environment whose version fetch succeeds in an editable state but in
which the build fetch fails (not found) and the age-rating fetch fails with
a transient error. -/
def envEditableDegraded : AscCli.Submit.Env :=
  ⟨.ok "PREPARE_FOR_SUBMISSION", .error ⟨true, "not found"⟩,
   .ok [⟨"loc-1", "en-US", "A great app", ""⟩],
   fun _ => .ok [⟨"set-1", "APP_IPHONE_67"⟩], fun _ => .ok [],
   .ok ["info-1"], fun _ => .ok [⟨"en-US", "My App", ""⟩],
   .error ⟨false, "timeout"⟩⟩

/-- C3 amended-claim witness at a concrete degraded environment. -/
theorem runValidation_degrades_witness :
    AscCli.Submit.runValidation envEditableDegraded "app-1" "ver-1" "IOS" =
      { AscCli.Submit.versionOkChain envEditableDegraded "app-1" "ver-1" "IOS"
          "PREPARE_FOR_SUBMISSION" with
        ready :=
          (AscCli.Submit.versionOkChain envEditableDegraded "app-1" "ver-1" "IOS"
            "PREPARE_FOR_SUBMISSION").errorCount == 0 } ∧
    (∀ r, AscCli.Submit.resultExtends r
      (AscCli.Submit.checkBuildAttached envEditableDegraded.getAppStoreVersionBuild r)) ∧
    (∀ r, AscCli.Submit.resultExtends r
      (AscCli.Submit.checkVersionLocalizations envEditableDegraded r)) ∧
    (∀ r, AscCli.Submit.resultExtends r
      (AscCli.Submit.checkAppInfoLocalizations envEditableDegraded r)) ∧
    (∀ r, AscCli.Submit.resultExtends r
      (AscCli.Submit.checkAgeRating envEditableDegraded.getAgeRatingDeclaration r)) :=
  runValidation_degrades envEditableDegraded "app-1" "ver-1" "IOS"
    "PREPARE_FOR_SUBMISSION" rfl

namespace AscCli

namespace Status

/-- `statusApp`. -/
structure StatusApp where
  id : String
  bundleId : String
  name : String
deriving DecidableEq

/-- `latestBuild`. -/
structure LatestBuild where
  id : String
  version : String
  buildNumber : String
  processingState : String
  uploadedDate : String
  platform : String
deriving DecidableEq

/-- `buildsSection`. -/
structure BuildsSection where
  latest : Option LatestBuild
deriving DecidableEq

/-- `testFlightSection`. -/
structure TestFlightSection where
  latestDistributedBuildId : String
  betaReviewState : String
  externalBuildState : String
  submittedDate : String
deriving DecidableEq

/-- `appStoreSection`. -/
structure AppStoreSection where
  versionId : String
  version : String
  state : String
  platform : String
  createdDate : String
deriving DecidableEq

/-- `submissionSection`. -/
structure SubmissionSection where
  inFlight : Bool
  blockingIssues : List String
deriving DecidableEq

/-- `reviewSection`. -/
structure ReviewSection where
  latestSubmissionId : String
  state : String
  submittedDate : String
  platform : String
deriving DecidableEq

/-- `phasedReleaseSection`. -/
structure PhasedReleaseSection where
  configured : Bool
  id : String
  state : String
  startDate : String
  currentDayNumber : Int
  totalPauseDuration : Int
deriving DecidableEq

/-- `linksSection`. -/
structure LinksSection where
  appStoreConnect : String
  testFlight : String
  review : String
deriving DecidableEq

/-- `includeSet`. -/
structure IncludeSet where
  builds : Bool
  testflight : Bool
  appstore : Bool
  submission : Bool
  review : Bool
  phasedRelease : Bool
  links : Bool
deriving DecidableEq

/-- `dashboardResponse`: the composite snapshot, pointer-valued sections
rendered as `Option`. -/
structure DashboardResponse where
  app : StatusApp
  builds : Option BuildsSection := none
  testflight : Option TestFlightSection := none
  appstore : Option AppStoreSection := none
  submission : Option SubmissionSection := none
  review : Option ReviewSection := none
  phasedRelease : Option PhasedReleaseSection := none
  links : Option LinksSection := none
deriving DecidableEq

/-- `sectionTask`: a named unit of work.  The Go closure mutates the shared
snapshot or fails; here it is a snapshot transformer that may fail. -/
structure SectionTask where
  name : String
  run : DashboardResponse → Except String DashboardResponse

/-- Sequential linearisation of `runTasks` (the tasks run in declaration
order, which is one admissible completion order of the concurrent
execution): each task transforms the snapshot or contributes its
name-tagged error, in order. -/
def runTasksSeq (tasks : List SectionTask) (resp : DashboardResponse) :
    DashboardResponse × List (String × String) :=
  tasks.foldl
    (fun acc task =>
      match task.run acc.1 with
      | .ok resp2 => (resp2, acc.2)
      | .error e => (acc.1, acc.2 ++ [(task.name, e)]))
    (resp, [])

/-- `fmt.Errorf("%s: %w", task.name, err)`. -/
def wrapTaskError (p : String × String) : String := p.1 ++ ": " ++ p.2

/-- `runTasks` returns the first error read from the error channel — with
the sequential linearisation, the first failing task's wrapped error — and
`nil` (here `none`) when no task failed. -/
def runTasksFirstError (tasks : List SectionTask) (resp : DashboardResponse) :
    DashboardResponse × Option String :=
  let out := runTasksSeq tasks resp
  (out.1, (out.2.map wrapTaskError).head?)

/-- The remote client as seen by `collectDashboard`: the app lookup plus the
three section-fill closures (each of which internally paginates and
performs its own fetches). -/
structure DashboardEnv where
  getApp : Except String StatusApp
  fillBuildsAndTestFlight : DashboardResponse → Except String DashboardResponse
  fillAppStoreAndPhasedRelease : DashboardResponse → Except String DashboardResponse
  fillSubmissionAndReview : DashboardResponse → Except String DashboardResponse

/-- The task list built by `collectDashboard` from the include set. -/
def dashboardTasks (env : DashboardEnv) (includes : IncludeSet) : List SectionTask :=
  (if includes.builds || includes.testflight then
    [⟨"builds/testflight", env.fillBuildsAndTestFlight⟩] else []) ++
  (if includes.appstore || includes.phasedRelease then
    [⟨"appstore/phased-release", env.fillAppStoreAndPhasedRelease⟩] else []) ++
  (if includes.submission || includes.review then
    [⟨"submission/review", env.fillSubmissionAndReview⟩] else [])

/-- The links section filled synchronously before the tasks run. -/
def linksFor (appID : String) : LinksSection :=
  ⟨"https://appstoreconnect.apple.com/apps/" ++ appID,
   "https://appstoreconnect.apple.com/apps/" ++ appID ++ "/testflight/ios",
   "https://appstoreconnect.apple.com/apps/" ++ appID ++ "/appstore/review"⟩

/-- The snapshot as initialised by `collectDashboard` before the tasks run. -/
def initialResponse (app : StatusApp) (appID : String) (includes : IncludeSet) :
    DashboardResponse :=
  let resp : DashboardResponse := { app := app }
  if includes.links then { resp with links := some (linksFor appID) } else resp

/-- Embedding of `collectDashboard`: resolve the app, initialise the
snapshot, run the section tasks, and return the snapshot only when no task
failed — otherwise return the first task error alone (`return nil, err`). -/
def collectDashboard (env : DashboardEnv) (appID : String) (includes : IncludeSet) :
    Except String DashboardResponse :=
  match env.getApp with
  | .error e => .error e
  | .ok app =>
    let resp := initialResponse app appID includes
    let out := runTasksFirstError (dashboardTasks env includes) resp
    match out.2 with
    | some e => .error e
    | none => .ok out.1

theorem runTasksSeq_names_aux (tasks : List SectionTask) :
    ∀ acc : DashboardResponse × List (String × String),
      ∀ p ∈ (tasks.foldl
        (fun acc task =>
          match task.run acc.1 with
          | .ok resp2 => (resp2, acc.2)
          | .error e => (acc.1, acc.2 ++ [(task.name, e)]))
        acc).2,
        p ∈ acc.2 ∨ p.1 ∈ tasks.map SectionTask.name := by
  induction tasks with
  | nil =>
    intro acc p hp
    exact Or.inl hp
  | cons task rest ih =>
    intro acc p hp
    simp only [List.foldl_cons] at hp
    rcases ih _ p hp with h | h
    · cases hrun : task.run acc.1 with
      | ok resp2 =>
        rw [hrun] at h
        exact Or.inl h
      | error e =>
        rw [hrun] at h
        rcases List.mem_append.mp h with h' | h'
        · exact Or.inl h'
        · simp only [List.mem_singleton] at h'
          subst h'
          exact Or.inr (by simp)
    · exact Or.inr (by simp [h])

end Status

end AscCli

/-- C2: if any section task fails, the dashboard aggregation returns an
error and no snapshot at all — no field filled by a sibling task reaches the
output — and the returned error is the first failing task's error wrapped
with that task's name (a name drawn from the task list). -/
theorem collectDashboard_discards_on_task_failure (env : AscCli.Status.DashboardEnv)
    (appID : String) (includes : AscCli.Status.IncludeSet)
    (app : AscCli.Status.StatusApp) (nm msg : String)
    (rest : List (String × String))
    (hApp : env.getApp = .ok app)
    (hFail : (AscCli.Status.runTasksSeq (AscCli.Status.dashboardTasks env includes)
        (AscCli.Status.initialResponse app appID includes)).2 = (nm, msg) :: rest) :
    AscCli.Status.collectDashboard env appID includes = .error (nm ++ ": " ++ msg) ∧
    nm ∈ (AscCli.Status.dashboardTasks env includes).map
      AscCli.Status.SectionTask.name ∧
    ∀ r, AscCli.Status.collectDashboard env appID includes ≠ .ok r := by
  have hcd : AscCli.Status.collectDashboard env appID includes =
      .error (nm ++ ": " ++ msg) := by
    unfold AscCli.Status.collectDashboard
    rw [hApp]
    show (match (AscCli.Status.runTasksFirstError
        (AscCli.Status.dashboardTasks env includes)
        (AscCli.Status.initialResponse app appID includes)).2 with
      | some e => (.error e : Except String AscCli.Status.DashboardResponse)
      | none => .ok (AscCli.Status.runTasksFirstError
          (AscCli.Status.dashboardTasks env includes)
          (AscCli.Status.initialResponse app appID includes)).1) =
      .error (nm ++ ": " ++ msg)
    unfold AscCli.Status.runTasksFirstError
    simp [hFail, AscCli.Status.wrapTaskError]
  refine ⟨hcd, ?_, ?_⟩
  · have := AscCli.Status.runTasksSeq_names_aux
      (AscCli.Status.dashboardTasks env includes)
      (AscCli.Status.initialResponse app appID includes, [])
      (nm, msg) (by rw [← AscCli.Status.runTasksSeq, hFail]; exact List.mem_cons_self _ _)
    rcases this with h | h
    · cases h
    · exact h
  · intro r hr
    rw [hcd] at hr
    cases hr

/-- A dashboard environment, all sections included, in which the
builds/testflight and submission/review tasks succeed (filling their
sections) and the appstore/phased-release task fails. -/
def envOneSectionDown : AscCli.Status.DashboardEnv :=
  ⟨.ok ⟨"app-1", "com.example.app", "Example"⟩,
   fun r => .ok { r with builds := some ⟨some ⟨"build-1", "1.0.0", "100", "VALID", "2026-02-20T00:00:00Z", "IOS"⟩⟩ },
   fun _ => .error "boom",
   fun r => .ok { r with review := some ⟨"sub-1", "COMPLETE", "2026-02-20T00:00:00Z", "IOS"⟩ }⟩

def allIncludes : AscCli.Status.IncludeSet :=
  ⟨true, true, true, true, true, true, true⟩

/-- C2 witness: with one failing task between two succeeding ones, the
aggregation returns only the name-wrapped error and no snapshot. -/
theorem collectDashboard_discards_on_task_failure_witness :
    AscCli.Status.collectDashboard envOneSectionDown "app-1" allIncludes =
      .error ("appstore/phased-release" ++ ": " ++ "boom") ∧
    "appstore/phased-release" ∈
      (AscCli.Status.dashboardTasks envOneSectionDown allIncludes).map
        AscCli.Status.SectionTask.name ∧
    ∀ r, AscCli.Status.collectDashboard envOneSectionDown "app-1" allIncludes ≠
      .ok r :=
  collectDashboard_discards_on_task_failure envOneSectionDown "app-1" allIncludes
    ⟨"app-1", "com.example.app", "Example"⟩ "appstore/phased-release" "boom" []
    rfl rfl

namespace AscCli

namespace Sched

/-- A goroutine task as scheduled by `runTasks`: its label and its
predetermined outcome (`none` = success, `some e` = failure). -/
structure GoTask where
  name : String
  outcome : Option String
deriving DecidableEq

/-- Scheduler state: tasks waiting on the semaphore, tasks holding a
semaphore slot, and completed tasks in completion order. -/
structure SchedState where
  waiting : List GoTask
  running : List GoTask
  completed : List GoTask
deriving DecidableEq

/-- `if limit < 1 { limit = 1 }` at the top of `runTasks`. -/
def effectiveLimit (limit : Nat) : Nat := if limit < 1 then 1 else limit

/-- Interleaving semantics of the semaphore-bounded goroutine fan-out of
`runTasks`: a waiting task may acquire a slot when fewer than `limit` are
held; a running task may complete at any time — in particular, completion
of a task is never affected by another task having failed (the code
propagates no cancellation between tasks). -/
inductive SchedStep (limit : Nat) : SchedState → SchedState → Prop
  | start (t : GoTask) (w1 w2 r c : List GoTask) (hlt : r.length < limit) :
      SchedStep limit ⟨w1 ++ t :: w2, r, c⟩ ⟨w1 ++ w2, r ++ [t], c⟩
  | finish (t : GoTask) (w r1 r2 c : List GoTask) :
      SchedStep limit ⟨w, r1 ++ t :: r2, c⟩ ⟨w, r1 ++ r2, c ++ [t]⟩

/-- Reflexive-transitive closure of the scheduler step. -/
inductive SchedReach (limit : Nat) (init : SchedState) : SchedState → Prop
  | refl : SchedReach limit init init
  | tail {s u : SchedState} :
      SchedReach limit init s → SchedStep limit s u → SchedReach limit init u

/-- The state at the top of `runTasks`: every task waiting, none running or
completed. -/
def initState (tasks : List GoTask) : SchedState := ⟨tasks, [], []⟩

/-- The wrapped error a failing task pushes on the error channel
(`fmt.Errorf("%s: %w", task.name, err)`). -/
def wrapOutcome (t : GoTask) : Option String :=
  t.outcome.map (fun e => t.name ++ ": " ++ e)

/-- The value `runTasks` returns after the join barrier: the first wrapped
error in completion order, `none` when every task succeeded. -/
def firstTaskError (completed : List GoTask) : Option String :=
  (completed.filterMap wrapOutcome).head?

theorem reach_running_bound {limit : Nat} {tasks : List GoTask} {s : SchedState}
    (h : SchedReach limit (initState tasks) s) : s.running.length ≤ limit := by
  induction h with
  | refl => simp [initState]
  | tail hr hs ih =>
    cases hs with
    | start t w1 w2 r c hlt =>
      simp only [List.length_append, List.length_singleton]
      omega
    | finish t w r1 r2 c =>
      simp only [List.length_append, List.length_cons] at ih ⊢
      omega

theorem reach_perm {limit : Nat} {tasks : List GoTask} {s : SchedState}
    (h : SchedReach limit (initState tasks) s) :
    (s.waiting ++ s.running ++ s.completed).Perm tasks := by
  induction h with
  | refl => simp [initState]
  | tail hr hs ih =>
    refine List.Perm.trans ?_ ih
    cases hs with
    | start t w1 w2 r c hlt =>
      rw [List.perm_iff_count]
      intro a
      simp only [List.count_append, List.count_cons, List.count_nil]
      omega
    | finish t w r1 r2 c =>
      rw [List.perm_iff_count]
      intro a
      simp only [List.count_append, List.count_cons, List.count_nil]
      omega

theorem sched_progress {limit : Nat} (hl : 1 ≤ limit) (s : SchedState)
    (h : s.waiting ≠ [] ∨ s.running ≠ []) : ∃ u, SchedStep limit s u := by
  obtain ⟨w, r, c⟩ := s
  cases r with
  | cons t r' => exact ⟨_, SchedStep.finish t w [] r' c⟩
  | nil =>
    cases w with
    | nil => simp at h
    | cons t w' =>
      exact ⟨_, SchedStep.start t [] w' [] c (by simpa using hl)⟩

theorem stuck_terminal {limit : Nat} (hl : 1 ≤ limit) {s : SchedState}
    (hstuck : ¬ ∃ u, SchedStep limit s u) :
    s.waiting = [] ∧ s.running = [] := by
  obtain ⟨w, r, c⟩ := s
  cases w with
  | cons t w' =>
    exact absurd (sched_progress hl ⟨t :: w', r, c⟩ (Or.inl (by simp))) hstuck
  | nil =>
    cases r with
    | cons t r' =>
      exact absurd (sched_progress hl ⟨[], t :: r', c⟩ (Or.inr (by simp))) hstuck
    | nil => exact ⟨rfl, rfl⟩

theorem step_source_nonempty {limit : Nat} {s u : SchedState}
    (h : SchedStep limit s u) : s.waiting ≠ [] ∨ s.running ≠ [] := by
  cases h with
  | start t w1 w2 r c hlt => exact Or.inl (by simp)
  | finish t w r1 r2 c => exact Or.inr (by simp)

theorem no_step_of_terminal {limit : Nat} (c : List GoTask) :
    ¬ ∃ u, SchedStep limit ⟨[], [], c⟩ u := by
  rintro ⟨u, hstep⟩
  rcases step_source_nonempty hstep with h | h
  · exact h rfl
  · exact h rfl

theorem firstTaskError_eq_none_iff (completed : List GoTask) :
    firstTaskError completed = none ↔ ∀ t ∈ completed, t.outcome = none := by
  unfold firstTaskError
  rw [List.head?_eq_none_iff, List.filterMap_eq_nil_iff]
  constructor
  · intro h t ht
    have := h t ht
    simpa [wrapOutcome] using this
  · intro h t ht
    simp [wrapOutcome, h t ht]

theorem firstTaskError_first_fail :
    ∀ (completed : List GoTask) (t : GoTask) (ts : List GoTask) (e : String),
      completed.filter (fun x => x.outcome.isSome) = t :: ts →
      t.outcome = some e →
      firstTaskError completed = some (t.name ++ ": " ++ e) := by
  intro completed
  induction completed with
  | nil => intro t ts e h _; simp at h
  | cons c rest ih =>
    intro t ts e hf ho
    cases hc : c.outcome with
    | none =>
      rw [List.filter_cons] at hf
      simp only [hc, Option.isSome_none] at hf
      unfold firstTaskError
      rw [List.filterMap_cons]
      simp only [wrapOutcome, hc, Option.map_none']
      exact ih t ts e hf ho
    | some e' =>
      rw [List.filter_cons] at hf
      simp only [hc, Option.isSome_some, if_pos] at hf
      obtain ⟨rfl, -⟩ : c = t ∧ rest.filter (fun x => x.outcome.isSome) = ts :=
        ⟨(List.cons_eq_cons.mp hf).1, (List.cons_eq_cons.mp hf).2⟩
      rw [hc] at ho
      obtain rfl : e' = e := Option.some.inj ho
      unfold firstTaskError
      rw [List.filterMap_cons]
      simp [wrapOutcome, hc]

end Sched

end AscCli

/-- C9: along every schedule of `runTasks` with the limit used by
`collectDashboard` (3), at most 3 tasks hold a semaphore slot at any time;
and every stuck state is a join-barrier state in which all tasks — also the
siblings of failed tasks, which are never cancelled — have completed, the
returned value is `none` exactly when every task succeeded, and otherwise it
is the first failing task's error (in completion order) wrapped with that
task's name. -/
theorem runTasks_sched_spec (tasks : List AscCli.Sched.GoTask)
    (s : AscCli.Sched.SchedState)
    (h : AscCli.Sched.SchedReach (AscCli.Sched.effectiveLimit 3)
      (AscCli.Sched.initState tasks) s) :
    s.running.length ≤ 3 ∧
    ((¬ ∃ u, AscCli.Sched.SchedStep (AscCli.Sched.effectiveLimit 3) s u) →
      s.waiting = [] ∧ s.running = [] ∧ s.completed.Perm tasks ∧
      (AscCli.Sched.firstTaskError s.completed = none ↔
        ∀ t ∈ tasks, t.outcome = none) ∧
      ∀ t ts e, s.completed.filter (fun x => x.outcome.isSome) = t :: ts →
        t.outcome = some e →
        AscCli.Sched.firstTaskError s.completed = some (t.name ++ ": " ++ e)) := by
  have heff : AscCli.Sched.effectiveLimit 3 = 3 := rfl
  constructor
  · have := AscCli.Sched.reach_running_bound h
    rwa [heff] at this
  · intro hstuck
    obtain ⟨hw, hr⟩ := AscCli.Sched.stuck_terminal (by rw [heff]; omega) hstuck
    have hperm := AscCli.Sched.reach_perm h
    rw [hw, hr] at hperm
    simp only [List.nil_append] at hperm
    refine ⟨hw, hr, hperm, ?_, ?_⟩
    · rw [AscCli.Sched.firstTaskError_eq_none_iff]
      constructor
      · intro hall t ht
        exact hall t (hperm.mem_iff.mpr ht)
      · intro hall t ht
        exact hall t (hperm.mem_iff.mp ht)
    · exact fun t ts e hf ho =>
        AscCli.Sched.firstTaskError_first_fail s.completed t ts e hf ho

def taskOkW : AscCli.Sched.GoTask := ⟨"builds/testflight", none⟩

def taskFailW : AscCli.Sched.GoTask := ⟨"appstore/phased-release", some "boom"⟩

/-- C9 witness: a concrete schedule of one succeeding and one failing task —
both start, the failing one completes first, the succeeding sibling still
runs to completion afterwards — reaching the join barrier with both tasks
completed and the failing task's wrapped error surfaced. -/
theorem runTasks_sched_spec_witness :
    (⟨[], [], [taskFailW, taskOkW]⟩ : AscCli.Sched.SchedState).running.length ≤ 3 ∧
    ([taskFailW, taskOkW] : List AscCli.Sched.GoTask).Perm [taskOkW, taskFailW] ∧
    AscCli.Sched.firstTaskError [taskFailW, taskOkW] =
      some ("appstore/phased-release" ++ ": " ++ "boom") := by
  have s1 : AscCli.Sched.SchedStep (AscCli.Sched.effectiveLimit 3)
      ⟨[taskOkW, taskFailW], [], []⟩ ⟨[taskFailW], [taskOkW], []⟩ :=
    AscCli.Sched.SchedStep.start taskOkW [] [taskFailW] [] [] (by decide)
  have s2 : AscCli.Sched.SchedStep (AscCli.Sched.effectiveLimit 3)
      ⟨[taskFailW], [taskOkW], []⟩ ⟨[], [taskOkW, taskFailW], []⟩ :=
    AscCli.Sched.SchedStep.start taskFailW [] [] [taskOkW] [] (by decide)
  have s3 : AscCli.Sched.SchedStep (AscCli.Sched.effectiveLimit 3)
      ⟨[], [taskOkW, taskFailW], []⟩ ⟨[], [taskOkW], [taskFailW]⟩ :=
    AscCli.Sched.SchedStep.finish taskFailW [] [taskOkW] [] []
  have s4 : AscCli.Sched.SchedStep (AscCli.Sched.effectiveLimit 3)
      ⟨[], [taskOkW], [taskFailW]⟩ ⟨[], [], [taskFailW, taskOkW]⟩ :=
    AscCli.Sched.SchedStep.finish taskOkW [] [] [] [taskFailW]
  have htrace : AscCli.Sched.SchedReach (AscCli.Sched.effectiveLimit 3)
      (AscCli.Sched.initState [taskOkW, taskFailW])
      ⟨[], [], [taskFailW, taskOkW]⟩ :=
    AscCli.Sched.SchedReach.tail
      (AscCli.Sched.SchedReach.tail
        (AscCli.Sched.SchedReach.tail
          (AscCli.Sched.SchedReach.tail AscCli.Sched.SchedReach.refl s1) s2) s3) s4
  have h := runTasks_sched_spec [taskOkW, taskFailW] ⟨[], [], [taskFailW, taskOkW]⟩ htrace
  have hterm := h.2 (AscCli.Sched.no_step_of_terminal [taskFailW, taskOkW])
  exact ⟨h.1, hterm.2.2.1,
    hterm.2.2.2.2 taskFailW [] "boom" (by decide) rfl⟩
